import Mathlib

/-!
Verification of the matrix-keypad FreeRTOS driver (src/keypad.c, src/keypad.h,
keypad_config.h) against its design specification.

The scanner, the debounce state machine (the body of the keypad_read task
loop), the dispatcher and the initializer are embedded as pure Lean functions.
Machine 32-bit values are Nat with an explicit reduction modulo 2 ^ 32 where
the C code can overflow.  The FreeRTOS one-shot debounce timer is modelled as
a countdown of poll cycles: xTimerReset sets the counter to the window length
W, xTimerIsTimerActive is the test that the counter is nonzero, and the time
that passes during each loop iteration (the scan delays plus the final
vTaskDelay) decrements the counter by one, saturating at zero.
-/

namespace Keypad

/-- KEY_EVENT_BITMASK from keypad.h: the 24-bit usable mask of the FreeRTOS
event group. -/
def KEY_EVENT_BITMASK : Nat := 0x00FFFFFF

/-- KEY_NONE from keypad_config.h: the empty key bitmask. -/
def KEY_NONE : Nat := 0

/-- KEYPAD_QUEUE_SIZE from keypad_config.h: capacity of the keypad queue. -/
def KEYPAD_QUEUE_SIZE : Nat := 10

/-- One column probe of keypad_scan (keypad.c line 103-110): while row is
driven low, if the column line reads low (KEYPAD_GPIO_GET = 0, given here by
colLow row col = true) the key bit at position row * col_count + col is OR'd
into the uint32 accumulator. -/
def scanRowStep (col_count : Nat) (colLow : Nat → Nat → Bool) (row key col : Nat) : Nat :=
  if colLow row col then (key ||| 1 <<< (row * col_count + col)) % 2 ^ 32 else key

/-- The inner column loop of keypad_scan for one driven row. -/
def scanRow (col_count : Nat) (colLow : Nat → Nat → Bool) (row key : Nat) : Nat :=
  (List.range col_count).foldl (scanRowStep col_count colLow row) key

/-- keypad_scan (keypad.c lines 87-121): drive each row low in order and
sample every column; colLow row col tells whether column col reads low while
row row is driven low.  Returns the uint32 bitmask of keys read as closed. -/
def keypad_scan (row_count col_count : Nat) (colLow : Nat → Nat → Bool) : Nat :=
  (List.range row_count).foldl (fun key row => scanRow col_count colLow row key) 0

/-- The state the keypad_read loop carries across poll cycles: the keys_down
accumulator (field keys_down of keypad_t) and the debounce timer, modelled as
the number of poll cycles remaining in the current debounce window (active
iff nonzero). -/
structure KeypadState where
  keys_down : Nat
  timer : Nat
deriving Repr, DecidableEq

/-- The state at the first loop iteration: keypad_init zeroes keys_down
(keypad.c line 219) and xTimerCreate creates the debounce timer dormant, so
the timer starts inactive. -/
def initState : KeypadState := { keys_down := 0, timer := 0 }

/-- The outcome of one iteration of the keypad_read loop: the updated state
and the value dispatched this cycle (the raw keys_down handed to the
dispatcher on a confirmed release), if any. -/
structure CycleResult where
  state : KeypadState
  dispatch : Option Nat
deriving Repr, DecidableEq

/-- One iteration of the keypad_read main loop (keypad.c lines 166-196),
given the scan result keys_pressed of this cycle and debounce window W:
if keys_pressed is nonzero, reset the timer when keys_pressed differs from
keys_down, then merge keys_pressed into keys_down; otherwise dispatch
keys_down when keys_down is nonzero and the timer is inactive, and in either
case assign keys_down = KEY_NONE.  The trailing timer decrement models the
time that elapses before the next iteration. -/
def keypad_read_cycle (W keys_pressed : Nat) (s : KeypadState) : CycleResult :=
  if keys_pressed ≠ 0 then
    { state :=
        { keys_down := s.keys_down ||| keys_pressed,
          timer := (if keys_pressed ≠ s.keys_down then W else s.timer) - 1 },
      dispatch := none }
  else
    { state := { keys_down := KEY_NONE, timer := s.timer - 1 },
      dispatch :=
        if s.keys_down ≠ KEY_NONE ∧ s.timer = 0 then some s.keys_down else none }

/-- Iterating the keypad_read loop over a list of successive scan results:
returns the final state and the list of dispatched masks in order. -/
def keypad_read_run (W : Nat) : List Nat → KeypadState → KeypadState × List Nat
  | [], s => (s, [])
  | p :: ps, s =>
    let r := keypad_read_cycle W p s
    let rest := keypad_read_run W ps r.state
    (rest.1, r.dispatch.toList ++ rest.2)

/-- Modelled from the spec: xEventGroupSetBits (a FreeRTOS primitive, not part
of this repository) OR's the given mask into the persistent event-group
bits. -/
def eventGroupSetBits (bits mask : Nat) : Nat := bits ||| mask

/-- Modelled from the spec: xQueueSend with zero timeout (a FreeRTOS
primitive, not part of this repository) on the bounded FIFO keypad queue is a
non-blocking send: if the queue already holds capacity messages the new one
is silently dropped, otherwise it is appended at the tail. -/
def queueSend (capacity : Nat) (q : List Nat) (v : Nat) : List Nat :=
  if q.length < capacity then q ++ [v] else q

/-- The two dispatch channels: the persistent event-group bits and the
bounded FIFO queue contents (head = oldest). -/
structure Channels where
  event_bits : Nat
  queue : List Nat
deriving Repr, DecidableEq

/-- The dispatcher (keypad.c lines 183-188): on a confirmed release, set
keys_down & KEY_EVENT_BITMASK in the event group and send the raw keys_down
into the queue with zero timeout. -/
def dispatchRelease (ch : Channels) (keys_down : Nat) : Channels :=
  { event_bits := eventGroupSetBits ch.event_bits (keys_down &&& KEY_EVENT_BITMASK),
    queue := queueSend KEYPAD_QUEUE_SIZE ch.queue keys_down }

/-- keypad_gpio_t from keypad_config.h: a port/pin/clock triple describing
one GPIO line (the numeric values are opaque to the core logic). -/
structure keypad_gpio_t where
  port : Nat
  pin : Nat
  periph : Nat
deriving Repr, DecidableEq

/-- The observable outcome of keypad_init. -/
structure InitResult where
  row_count : Nat
  col_count : Nat
  keys_pressed : Nat
  keys_down : Nat
  task_created : Bool
deriving Repr, DecidableEq

/-- keypad_init (keypad.c lines 211-230): derives row_count and col_count
from the lengths of the row and column GPIO tables — stored into the uint8_t
fields of keypad_t (keypad.h lines 16-17), hence reduced modulo 2 ^ 8 —
zeroes the key state, initializes the GPIO pins, and unconditionally calls
xTaskCreate for the keypad_read poll task.  The function contains no
validation of row_count * col_count against the dispatch mask width. -/
def keypad_init (rowTable colTable : List keypad_gpio_t) : InitResult :=
  { row_count := rowTable.length % 2 ^ 8,
    col_count := colTable.length % 2 ^ 8,
    keys_pressed := 0,
    keys_down := 0,
    task_created := true }

/- ### Helper lemmas about bit operations and runs -/

theorem or_ne_zero_right (a b : Nat) (hb : b ≠ 0) : a ||| b ≠ 0 := by
  intro h0
  rcases Nat.exists_most_significant_bit hb with ⟨i, hi, _⟩
  have hbit : (a ||| b).testBit i = true := by simp [Nat.testBit_lor, hi]
  rw [h0] at hbit
  simp at hbit

theorem and_mask_eq_of_lt (d : Nat) (h : d < 2 ^ 24) : d &&& (2 ^ 24 - 1) = d := by
  apply Nat.eq_of_testBit_eq
  intro i
  rw [Nat.testBit_land]
  by_cases hi : i < 24
  · rw [Nat.testBit_two_pow_sub_one]
    simp [hi]
  · rw [Nat.testBit_eq_false_of_lt
      (lt_of_lt_of_le h (Nat.pow_le_pow_right (by norm_num) (by omega)))]
    simp

theorem keypad_read_run_append (W : Nat) (xs ys : List Nat) (s : KeypadState) :
    keypad_read_run W (xs ++ ys) s =
      ((keypad_read_run W ys (keypad_read_run W xs s).1).1,
       (keypad_read_run W xs s).2 ++ (keypad_read_run W ys (keypad_read_run W xs s).1).2) := by
  induction xs generalizing s with
  | nil => simp [keypad_read_run]
  | cons p ps ih => simp [keypad_read_run, ih]

theorem keypad_read_run_empty_scans (W t n : Nat) :
    keypad_read_run W (List.replicate n 0) ⟨0, t⟩ = (⟨0, t - n⟩, []) := by
  induction n generalizing t with
  | zero => simp [keypad_read_run]
  | succ n ih =>
    have h1 : keypad_read_cycle W 0 ⟨0, t⟩ = ⟨⟨0, t - 1⟩, none⟩ := by
      simp [keypad_read_cycle, KEY_NONE]
    rw [List.replicate_succ, keypad_read_run, h1]
    simp [ih, Nat.sub_sub, Nat.add_comm]

theorem keypad_read_run_held (W m : Nat) (hm : m ≠ 0) (n t : Nat) :
    keypad_read_run W (List.replicate n m) ⟨m, t⟩ = (⟨m, t - n⟩, []) := by
  induction n generalizing t with
  | zero => simp [keypad_read_run]
  | succ n ih =>
    have h1 : keypad_read_cycle W m ⟨m, t⟩ = ⟨⟨m, t - 1⟩, none⟩ := by
      simp [keypad_read_cycle, hm]
    rw [List.replicate_succ, keypad_read_run, h1]
    simp [ih, Nat.sub_sub, Nat.add_comm]

theorem keypad_read_cycle_fresh_press (W p : Nat) (s : KeypadState)
    (hp : p ≠ 0) (hne : p ≠ s.keys_down) :
    keypad_read_cycle W p s = ⟨⟨s.keys_down ||| p, W - 1⟩, none⟩ := by
  simp [keypad_read_cycle, hp, hne]

theorem keypad_read_run_single (W p : Nat) (s : KeypadState) :
    keypad_read_run W [p] s =
      ((keypad_read_cycle W p s).state, (keypad_read_cycle W p s).dispatch.toList) := by
  simp [keypad_read_run]

theorem keypad_read_run_cons (W p : Nat) (ps : List Nat) (s : KeypadState) :
    keypad_read_run W (p :: ps) s =
      ((keypad_read_run W ps (keypad_read_cycle W p s).state).1,
       (keypad_read_cycle W p s).dispatch.toList ++
         (keypad_read_run W ps (keypad_read_cycle W p s).state).2) := by
  simp [keypad_read_run]

/- ### C8: idle runs -/

/-- C8: starting from the initial state, a run in which every scan returns
the empty bitmask dispatches nothing and leaves keys_down empty after every
cycle. -/
theorem idle_no_dispatch (W n : Nat) :
    (keypad_read_run W (List.replicate n 0) initState).2 = [] ∧
    (keypad_read_run W (List.replicate n 0) initState).1.keys_down = 0 := by
  have h := keypad_read_run_empty_scans W 0 n
  rw [initState, h]
  exact ⟨rfl, rfl⟩

/- ### C10: at most one dispatch per maximal run of empty scans -/

/-- C10: from any state, a maximal run of consecutive empty-scan cycles
dispatches at most once: the cycle that dispatches (necessarily the first)
resets keys_down to empty, and an empty-scan cycle whose starting keys_down
is empty never dispatches. -/
theorem empty_run_single_dispatch (W n : Nat) (s : KeypadState) :
    (keypad_read_run W (List.replicate n 0) s).2.length ≤ 1 ∧
    (keypad_read_cycle W 0 s).state.keys_down = 0 := by
  refine ⟨?_, by simp [keypad_read_cycle, KEY_NONE]⟩
  cases n with
  | zero => simp [keypad_read_run]
  | succ n =>
    have h1 : (keypad_read_cycle W 0 s).state = ⟨0, s.timer - 1⟩ := by
      simp [keypad_read_cycle, KEY_NONE]
    rw [List.replicate_succ, keypad_read_run, h1, keypad_read_run_empty_scans]
    cases h : (keypad_read_cycle W 0 s).dispatch <;> simp [h]

/- ### C1: behaviour of an empty-scan cycle while the timer is active -/

/-- C1 counterexample: with debounce window W = 3, one scan reading key bit 0
from the initial state leaves keys_down = 1 with the timer active; the next
cycle scans empty while the timer is still active, and the code does not
leave keys_down unchanged: it dispatches nothing but resets keys_down to
empty (keypad.c line 191 runs unconditionally in the else branch). -/
theorem empty_scan_active_timer_wipes_keys_down :
    ((keypad_read_cycle 3 1 initState).state.keys_down = 1 ∧
      (keypad_read_cycle 3 1 initState).state.timer ≠ 0) ∧
    (keypad_read_cycle 3 0 (keypad_read_cycle 3 1 initState).state).dispatch = none ∧
    (keypad_read_cycle 3 0 (keypad_read_cycle 3 1 initState).state).state.keys_down = 0 := by
  decide

/-- C1 (amended): on a cycle whose scan is empty while keys_down is non-empty
and the debounce timer is still active, no release is dispatched, but
keys_down does not persist: it is reset to empty.  In fact keys_down is reset
to empty exactly on the cycles whose scan is empty, whether or not the timer
is active or a dispatch occurs. -/
theorem empty_scan_resets_keys_down (W p : Nat) (s : KeypadState) :
    (p = 0 → s.keys_down ≠ 0 → s.timer ≠ 0 →
      (keypad_read_cycle W p s).dispatch = none ∧
      (keypad_read_cycle W p s).state.keys_down = 0) ∧
    ((keypad_read_cycle W p s).state.keys_down = 0 ↔ p = 0) := by
  constructor
  · intro hp _ ht
    simp [keypad_read_cycle, hp, KEY_NONE, ht]
  · constructor
    · intro h
      by_contra hp
      simp only [keypad_read_cycle, if_pos hp] at h
      exact or_ne_zero_right s.keys_down p hp h
    · intro hp
      simp [keypad_read_cycle, hp, KEY_NONE]

/-- Witness for the amended C1 at the concrete reachable state of the
counterexample: keys_down = 1, timer = 2, empty scan. -/
theorem empty_scan_resets_keys_down_witness :
    (keypad_read_cycle 3 0 ⟨1, 2⟩).dispatch = none ∧
    (keypad_read_cycle 3 0 ⟨1, 2⟩).state.keys_down = 0 :=
  (empty_scan_resets_keys_down 3 0 ⟨1, 2⟩).1 rfl (by decide) (by decide)

/- ### C3: initialization performs no configuration validation -/

/-- C3 counterexample: keypad_init given 5-row and 5-column GPIO tables
(25 keys, exceeding the 24-bit dispatch mask) still creates the poll task:
initialization rejects nothing. -/
theorem init_oversized_config_starts_task :
    (keypad_init (List.replicate 5 ⟨0, 0, 0⟩) (List.replicate 5 ⟨0, 0, 0⟩)).task_created = true ∧
    24 < (keypad_init (List.replicate 5 ⟨0, 0, 0⟩) (List.replicate 5 ⟨0, 0, 0⟩)).row_count *
        (keypad_init (List.replicate 5 ⟨0, 0, 0⟩) (List.replicate 5 ⟨0, 0, 0⟩)).col_count := by
  decide

/-- C3 (amended): keypad_init performs no validation of the configuration:
for every pair of GPIO tables, including ones with
row_count * col_count > 24, it sets the counts from the table lengths
(truncated into the uint8_t fields of keypad_t, i.e. reduced modulo 2 ^ 8),
zeroes the key state, and starts the poll task. -/
theorem keypad_init_unconditional (rowTable colTable : List keypad_gpio_t) :
    (keypad_init rowTable colTable).task_created = true ∧
    (keypad_init rowTable colTable).keys_down = 0 ∧
    (keypad_init rowTable colTable).keys_pressed = 0 ∧
    (keypad_init rowTable colTable).row_count = rowTable.length % 2 ^ 8 ∧
    (keypad_init rowTable colTable).col_count = colTable.length % 2 ^ 8 := by
  simp [keypad_init]

/- ### C7: debounce timing lower bound -/

/-- C7: a single key bit held continuously for n poll cycles (n ≥ 1) and then
released dispatches a confirmed release exactly when n reaches the debounce
window W: held for fewer cycles than the window, the timer is still active
when the empty scan is observed and nothing is dispatched; held for at least
one full window, the release is confirmed and dispatched. -/
theorem debounce_timing_lower_bound (W n k : Nat) (hn : 1 ≤ n) :
    (keypad_read_run W (List.replicate n (1 <<< k) ++ [0]) initState).2 =
      if n < W then [] else [1 <<< k] := by
  obtain ⟨j, rfl⟩ : ∃ j, n = j + 1 := ⟨n - 1, by omega⟩
  have hm : (1 <<< k : Nat) ≠ 0 := by
    simp [Nat.one_shiftLeft]
  have h1 : keypad_read_cycle W (1 <<< k) initState = ⟨⟨1 <<< k, W - 1⟩, none⟩ := by
    rw [keypad_read_cycle_fresh_press W (1 <<< k) initState hm (by simpa [initState] using hm)]
    simp [initState]
  rw [List.replicate_succ, List.cons_append, keypad_read_run, h1]
  simp only
  rw [keypad_read_run_append, keypad_read_run_held W (1 <<< k) hm j (W - 1)]
  simp only [keypad_read_run_single, keypad_read_cycle, KEY_NONE]
  by_cases hlt : j + 1 < W
  · have ht : W - 1 - j ≠ 0 := by omega
    simp [hm, ht, hlt]
  · have ht : W - 1 - j = 0 := by omega
    simp [hm, ht, hlt]

/-- Witness for C7 at W = 2, n = 3, k = 0: held past the window, the release
of key bit 0 is dispatched. -/
theorem debounce_timing_lower_bound_witness :
    (keypad_read_run 2 (List.replicate 3 (1 <<< 0) ++ [0]) initState).2 =
      if 3 < 2 then [] else [1 <<< 0] :=
  debounce_timing_lower_bound 2 3 0 (by decide)

/- ### C2: debounce suppresses flicker -/

/-- C2: a single key bit that toggles on and off faster than the debounce
window (pressed, released, pressed, released, each one cycle apart with
window W ≥ 2), then held stably for n ≥ W cycles, then released, produces
exactly one confirmed-release dispatch, whose mask is the union of the key
bits observed pressed during the flicker (here the single key bit): the
mid-bounce open observations do not cause a dispatch and the reclosed key is
present in the final dispatched mask. -/
theorem debounce_suppresses_flicker (W n k : Nat) (hW : 2 ≤ W) (hn : W ≤ n) :
    (keypad_read_run W
        (([1 <<< k, 0, 1 <<< k, 0] ++ List.replicate n (1 <<< k)) ++ [0]) initState).2 =
      [1 <<< k] := by
  obtain ⟨j, rfl⟩ : ∃ j, n = j + 1 := ⟨n - 1, by omega⟩
  have hm : (1 <<< k : Nat) ≠ 0 := by
    simp [Nat.one_shiftLeft]
  have hW1 : W - 1 ≠ 0 := by omega
  have ht : W - 1 - j = 0 := by omega
  have hfresh : ∀ s : KeypadState, s.keys_down = 0 →
      keypad_read_cycle W (1 <<< k) s = ⟨⟨1 <<< k, W - 1⟩, none⟩ := by
    intro s hs
    rw [keypad_read_cycle_fresh_press W (1 <<< k) s hm (by simp [hs, hm]), hs]
    simp
  have hempty : keypad_read_cycle W 0 ⟨1 <<< k, W - 1⟩ = ⟨⟨0, W - 2⟩, none⟩ := by
    simp only [keypad_read_cycle, KEY_NONE]
    simp [hW1, Nat.sub_sub]
  simp only [List.cons_append, List.nil_append, List.replicate_succ,
    keypad_read_run_cons, keypad_read_run_append, keypad_read_run_single,
    hfresh, hempty, initState, keypad_read_run_held W (1 <<< k) hm, ht]
  simp [keypad_read_run, keypad_read_cycle, KEY_NONE, hm]

/-- Witness for C2 at W = 2, n = 2, k = 0. -/
theorem debounce_suppresses_flicker_witness :
    (keypad_read_run 2
        (([1 <<< 0, 0, 1 <<< 0, 0] ++ List.replicate 2 (1 <<< 0)) ++ [0]) initState).2 =
      [1 <<< 0] :=
  debounce_suppresses_flicker 2 2 0 (by decide) (by decide)

/- ### C5: accumulator correctness under chording -/

/-- C5: key A pressed alone for one cycle, then keys A and B (distinct bits)
pressed together and held stably for n ≥ W ≥ 1 cycles, then both released,
produces exactly one confirmed-release dispatch whose mask is
bit(A) ||| bit(B). -/
theorem chord_accumulates (W n a b : Nat) (hab : a ≠ b) (hW : 1 ≤ W) (hn : W ≤ n) :
    (keypad_read_run W
        (([1 <<< a] ++ List.replicate n (1 <<< a ||| 1 <<< b)) ++ [0]) initState).2 =
      [1 <<< a ||| 1 <<< b] := by
  obtain ⟨j, rfl⟩ : ∃ j, n = j + 1 := ⟨n - 1, by omega⟩
  have hA : (1 <<< a : Nat) ≠ 0 := by simp [Nat.one_shiftLeft]
  have hB : (1 <<< b : Nat) ≠ 0 := by simp [Nat.one_shiftLeft]
  have hAB : (1 <<< a ||| 1 <<< b : Nat) ≠ 0 := or_ne_zero_right _ _ hB
  have hABne : (1 <<< a ||| 1 <<< b : Nat) ≠ 1 <<< a := by
    intro h
    have hbit := congrArg (fun x => Nat.testBit x b) h
    simp only [Nat.one_shiftLeft, Nat.testBit_lor, Nat.testBit_two_pow_self,
      Nat.testBit_two_pow_of_ne hab, Bool.false_or] at hbit
    cases hbit
  have ht : W - 1 - j = 0 := by omega
  have h1 : keypad_read_cycle W (1 <<< a) initState = ⟨⟨1 <<< a, W - 1⟩, none⟩ := by
    rw [keypad_read_cycle_fresh_press W (1 <<< a) initState hA
      (by simpa [initState] using hA)]
    simp [initState]
  have h2 : keypad_read_cycle W (1 <<< a ||| 1 <<< b) ⟨1 <<< a, W - 1⟩ =
      ⟨⟨1 <<< a ||| 1 <<< b, W - 1⟩, none⟩ := by
    rw [keypad_read_cycle_fresh_press W (1 <<< a ||| 1 <<< b) ⟨1 <<< a, W - 1⟩ hAB
      (by simpa using hABne)]
    simp only [← Nat.or_assoc, Nat.or_self]
  simp only [List.cons_append, List.nil_append, List.replicate_succ,
    keypad_read_run_cons, keypad_read_run_append, keypad_read_run_single,
    h1, h2, keypad_read_run_held W (1 <<< a ||| 1 <<< b) hAB, ht]
  simp [keypad_read_run, keypad_read_cycle, KEY_NONE, hAB]

/-- Witness for C5 at W = 1, n = 1, a = 0, b = 1: dispatch of mask 3. -/
theorem chord_accumulates_witness :
    (keypad_read_run 1
        (([1 <<< 0] ++ List.replicate 1 (1 <<< 0 ||| 1 <<< 1)) ++ [0]) initState).2 =
      [1 <<< 0 ||| 1 <<< 1] :=
  chord_accumulates 1 1 0 1 (by decide) (by decide) (by decide)

/- ### Scanner lemmas -/

theorem scanRow_foldl_no_hit (C : Nat) (colLow : Nat → Nat → Bool) (r : Nat)
    (l : List Nat) (key : Nat) (h : ∀ c ∈ l, colLow r c = false) :
    l.foldl (scanRowStep C colLow r) key = key := by
  induction l generalizing key with
  | nil => rfl
  | cons c cs ih =>
    have hc : colLow r c = false := h c (by simp)
    simp only [List.foldl_cons, scanRowStep, hc, Bool.false_eq_true, if_false]
    exact ih key fun x hx => h x (by simp [hx])

theorem scanRow_foldl_single_hit (C : Nat) (colLow : Nat → Nat → Bool) (r c key : Nat)
    (hcol : ∀ col, colLow r col = true ↔ col = c) :
    ∀ n, c < n →
      (List.range n).foldl (scanRowStep C colLow r) key =
        (key ||| 1 <<< (r * C + c)) % 2 ^ 32 := by
  intro n
  induction n with
  | zero => omega
  | succ m ih =>
    intro hc
    rw [List.range_succ, List.foldl_append]
    by_cases hcm : c < m
    · rw [ih hcm]
      have hm : colLow r m = false := by
        rw [← Bool.not_eq_true, hcol m]
        omega
      simp [List.foldl_cons, scanRowStep, hm]
    · have hceq : c = m := by omega
      rw [scanRow_foldl_no_hit C colLow r (List.range m) key]
      · subst hceq
        simp [scanRowStep, (hcol c).mpr rfl]
      · intro x hx
        rw [← Bool.not_eq_true, hcol x]
        rw [List.mem_range] at hx
        omega

theorem keypad_scan_rows_no_hit (C : Nat) (colLow : Nat → Nat → Bool)
    (l : List Nat) (key : Nat) (h : ∀ row ∈ l, ∀ col, colLow row col = false) :
    l.foldl (fun key row => scanRow C colLow row key) key = key := by
  induction l generalizing key with
  | nil => rfl
  | cons r rs ih =>
    simp only [List.foldl_cons]
    rw [scanRow, scanRow_foldl_no_hit C colLow r _ key fun x _ => h r (by simp) x]
    exact ih key fun x hx => h x (by simp [hx])

/- ### C4: bit-position correctness of the scan -/

/-- C4: for all row and column indices in range (under the documented
configuration invariant row_count * col_count ≤ 24), when the contact at
(r, c) — and only that contact — makes its column line read low while its row
is driven low, keypad_scan returns exactly the bitmask
1 <<< (r * col_count + c). -/
theorem keypad_scan_single_contact (R C r c : Nat)
    (hr : r < R) (hc : c < C) (hRC : R * C ≤ 24) :
    keypad_scan R C (fun row col => decide (row = r ∧ col = c)) =
      1 <<< (r * C + c) := by
  have hpos : r * C + c < 24 := by
    have h1 : r * C + c < (r + 1) * C := by
      have := Nat.add_lt_add_left hc (r * C)
      simpa [Nat.succ_mul] using this
    have h2 : (r + 1) * C ≤ R * C := Nat.mul_le_mul_right C hr
    omega
  have hlt32 : (1 <<< (r * C + c) : Nat) < 2 ^ 32 := by
    rw [Nat.one_shiftLeft]
    exact Nat.pow_lt_pow_right (by norm_num) (by omega)
  have key : ∀ n, r < n →
      (List.range n).foldl
          (fun key row => scanRow C (fun row col => decide (row = r ∧ col = c)) row key) 0 =
        1 <<< (r * C + c) := by
    intro n
    induction n with
    | zero => omega
    | succ m ih =>
      intro hrn
      rw [List.range_succ, List.foldl_append]
      by_cases hrm : r < m
      · rw [ih hrm]
        simp only [List.foldl_cons, List.foldl_nil]
        rw [scanRow, scanRow_foldl_no_hit]
        intro x _
        exact decide_eq_false (by omega)
      · have hreq : r = m := by omega
        have hinner :
            (List.range m).foldl
                (fun key row => scanRow C (fun row col => decide (row = r ∧ col = c)) row key)
                0 = 0 := by
          apply keypad_scan_rows_no_hit
          intro row hrow col
          rw [List.mem_range] at hrow
          exact decide_eq_false (by omega)
        rw [hinner]
        simp only [List.foldl_cons, List.foldl_nil]
        subst hreq
        rw [scanRow, scanRow_foldl_single_hit C _ r c 0 (by intro col; simp) C hc]
        rw [Nat.zero_or, Nat.mod_eq_of_lt hlt32]
  rw [keypad_scan]
  exact key R hr

/-- Witness for C4 at the shipped 4 × 4 configuration, contact (2, 3):
bit position 2 * 4 + 3 = 11. -/
theorem keypad_scan_single_contact_witness :
    keypad_scan 4 4 (fun row col => decide (row = 2 ∧ col = 3)) = 1 <<< (2 * 4 + 3) :=
  keypad_scan_single_contact 4 4 2 3 (by decide) (by decide) (by decide)

/- ### Scan and run bounds for the mask width invariant -/

theorem scanRow_foldl_lt (C : Nat) (colLow : Nat → Nat → Bool) (r : Nat)
    (l : List Nat) (key : Nat) (hl : ∀ x ∈ l, r * C + x < 24) (hkey : key < 2 ^ 24) :
    l.foldl (scanRowStep C colLow r) key < 2 ^ 24 := by
  induction l generalizing key with
  | nil => exact hkey
  | cons x xs ih =>
    simp only [List.foldl_cons, scanRowStep]
    apply ih _ (fun y hy => hl y (by simp [hy]))
    split
    · apply lt_of_le_of_lt (Nat.mod_le _ _)
      apply Nat.or_lt_two_pow hkey
      rw [Nat.one_shiftLeft]
      exact Nat.pow_lt_pow_right (by norm_num) (hl x (by simp))
    · exact hkey

theorem keypad_scan_lt (R C : Nat) (colLow : Nat → Nat → Bool) (hRC : R * C ≤ 24) :
    keypad_scan R C colLow < 2 ^ 24 := by
  rw [keypad_scan]
  have key : ∀ l : List Nat, (∀ row ∈ l, row < R) → ∀ k : Nat, k < 2 ^ 24 →
      l.foldl (fun key row => scanRow C colLow row key) k < 2 ^ 24 := by
    intro l
    induction l with
    | nil => exact fun _ k hk => hk
    | cons r rs ih =>
      intro hl k hk
      simp only [List.foldl_cons]
      apply ih (fun y hy => hl y (by simp [hy]))
      rw [scanRow]
      apply scanRow_foldl_lt C colLow r _ k _ hk
      intro x hx
      rw [List.mem_range] at hx
      have hrR : r < R := hl r (by simp)
      have h1 : r * C + x < (r + 1) * C := by
        have := Nat.add_lt_add_left hx (r * C)
        simpa [Nat.succ_mul] using this
      have h2 : (r + 1) * C ≤ R * C := Nat.mul_le_mul_right C hrR
      omega
  apply key
  · intro row hrow
    rwa [List.mem_range] at hrow
  · norm_num

theorem keypad_read_run_dispatch_lt (W : Nat) (ks : List Nat) (s : KeypadState)
    (hks : ∀ x ∈ ks, x < 2 ^ 24) (hs : s.keys_down < 2 ^ 24) :
    ∀ d ∈ (keypad_read_run W ks s).2, d < 2 ^ 24 := by
  induction ks generalizing s with
  | nil => simp [keypad_read_run]
  | cons p ps ih =>
    rw [keypad_read_run_cons]
    intro d hd
    rw [List.mem_append] at hd
    rcases hd with hd | hd
    · rcases Option.mem_toList.mp hd with h
      rw [keypad_read_cycle] at h
      split at h
      · simp at h
      · split at h
        · rename_i hcond
          rw [Option.mem_def, Option.some_inj] at h
          omega
        · simp at h
    · apply ih (keypad_read_cycle W p s).state (fun x hx => hks x (by simp [hx])) _ d hd
      rw [keypad_read_cycle]
      split
      · apply Nat.or_lt_two_pow hs
        exact hks p (by simp)
      · simp [KEY_NONE]

/- ### C6: mask width invariant -/

/-- C6: for any configuration with row_count * col_count ≤ 24, every mask
dispatched by the poll loop driven by keypad_scan (the raw keys_down value
sent to the queue) is below 2 ^ 24, and masking it with KEY_EVENT_BITMASK is
the identity: all bits above position 23 are clear, and the unmasked queue
value equals the masked event-group value. -/
theorem dispatched_mask_width (W R C : Nat) (hRC : R * C ≤ 24)
    (reads : List (Nat → Nat → Bool)) (d : Nat)
    (hd : d ∈ (keypad_read_run W (reads.map (fun f => keypad_scan R C f)) initState).2) :
    d < 2 ^ 24 ∧ d &&& KEY_EVENT_BITMASK = d := by
  have hlt : d < 2 ^ 24 := by
    apply keypad_read_run_dispatch_lt W _ initState _ _ d hd
    · intro x hx
      rw [List.mem_map] at hx
      rcases hx with ⟨f, _, rfl⟩
      exact keypad_scan_lt R C f hRC
    · simp [initState]
  refine ⟨hlt, ?_⟩
  have hmask : KEY_EVENT_BITMASK = 2 ^ 24 - 1 := by norm_num [KEY_EVENT_BITMASK]
  rw [hmask]
  exact and_mask_eq_of_lt d hlt

/-- Witness for C6: a 1 × 1 keypad whose key is pressed for one cycle
(W = 1) and then released dispatches the mask 1, which is below 2 ^ 24 and
fixed by the event-group mask. -/
theorem dispatched_mask_width_witness :
    (1 : Nat) < 2 ^ 24 ∧ 1 &&& KEY_EVENT_BITMASK = 1 :=
  dispatched_mask_width 1 1 1 (by decide)
    [fun _ _ => true, fun _ _ => false] 1 (by decide)

/- ### C9: channel overflow behaviour -/

theorem queueSend_foldl (cap : Nat) (vs q : List Nat) (h : q.length ≤ cap) :
    vs.foldl (queueSend cap) q = q ++ vs.take (cap - q.length) := by
  induction vs generalizing q with
  | nil => simp
  | cons v vs ih =>
    simp only [List.foldl_cons, queueSend]
    by_cases hlt : q.length < cap
    · rw [if_pos hlt, ih (q ++ [v]) (by simp; omega)]
      have hsub : cap - q.length = (cap - (q ++ [v]).length) + 1 := by simp; omega
      rw [hsub, List.take_succ_cons, List.append_assoc]
      simp
    · rw [if_neg hlt, ih q h]
      have h0 : cap - q.length = 0 := by omega
      simp [h0]

/-- C9: the dispatch path is fire-and-forget.  If the keypad queue already
holds its full capacity (KEYPAD_QUEUE_SIZE messages), dispatching a release
leaves the queue exactly as it was — the new message is dropped, the retained
messages and their FIFO order are unchanged — while the event-group broadcast
of the masked release is still delivered; and sending any burst of messages
into an empty queue retains exactly the first KEYPAD_QUEUE_SIZE of them in
FIFO order. -/
theorem dispatch_drop_on_full (ch : Channels) (d : Nat) (vs : List Nat)
    (hfull : ch.queue.length = KEYPAD_QUEUE_SIZE) :
    (dispatchRelease ch d).queue = ch.queue ∧
    (dispatchRelease ch d).queue.length = KEYPAD_QUEUE_SIZE ∧
    (dispatchRelease ch d).event_bits = ch.event_bits ||| (d &&& KEY_EVENT_BITMASK) ∧
    vs.foldl (queueSend KEYPAD_QUEUE_SIZE) [] = vs.take KEYPAD_QUEUE_SIZE := by
  have hq : (dispatchRelease ch d).queue = ch.queue := by
    rw [dispatchRelease]
    simp [queueSend, hfull]
  refine ⟨hq, by rw [hq, hfull], rfl, ?_⟩
  simpa using queueSend_foldl KEYPAD_QUEUE_SIZE vs [] (by simp)

/-- Witness for C9 with a full queue of ten zero messages and a release of
mask 5. -/
theorem dispatch_drop_on_full_witness :
    (dispatchRelease ⟨0, List.replicate 10 0⟩ 5).queue = List.replicate 10 0 ∧
    (dispatchRelease ⟨0, List.replicate 10 0⟩ 5).queue.length = KEYPAD_QUEUE_SIZE ∧
    (dispatchRelease ⟨0, List.replicate 10 0⟩ 5).event_bits =
      0 ||| (5 &&& KEY_EVENT_BITMASK) ∧
    List.foldl (queueSend KEYPAD_QUEUE_SIZE) [] [1, 2, 3] =
      List.take KEYPAD_QUEUE_SIZE [1, 2, 3] :=
  dispatch_drop_on_full ⟨0, List.replicate 10 0⟩ 5 [1, 2, 3] (by decide)

end Keypad
